import Mathlib

/-!
Shallow embedding of the waste-2-wonder backend's local logic:
`sanitize_response` and `WasteAnalyzer.generate_suggestions` from
`waste_analysis.py`, `apply_migrations` from `apply_migrations.py`, and
`UpcyclingChatbot.get_fallback_response` from `chatbot.py`.
Strings are modelled as `String` or `List Char`; Python `-1` sentinels are
modelled with `Int` indices; SQL execution and external API calls are
modelled by outcome oracles.
-/

/-! ### `sanitize_response` (waste_analysis.py lines 234-241) -/

/-- Python `str.find(c)`: lowest index of `c` in `s`, or `-1` when absent. -/
def strFind (s : List Char) (c : Char) : Int :=
  if c ∈ s then (s.findIdx (· = c) : Int) else -1

/-- Python `str.rfind(c)`: highest index of `c` in `s`, or `-1` when absent. -/
def strRfind (s : List Char) (c : Char) : Int :=
  if c ∈ s then ((s.length - 1 - s.reverse.findIdx (· = c) : Nat) : Int) else -1

/-- Python slice `s[a:b]` for the non-negative indices that
`sanitize_response` actually uses. -/
def pySlice (s : List Char) (a b : Int) : List Char :=
  (s.take b.toNat).drop a.toNat

/-- `sanitize_response(response_text)`:
`start_idx = response_text.find('{')`, `end_idx = response_text.rfind('}') + 1`;
return `response_text[start_idx:end_idx]` when `start_idx != -1 and
end_idx != -1`, else `response_text` unchanged. -/
def sanitize_response (response_text : List Char) : List Char :=
  let start_idx := strFind response_text '{'
  let end_idx := strRfind response_text '}' + 1
  if start_idx ≠ -1 ∧ end_idx ≠ -1 then pySlice response_text start_idx end_idx
  else response_text

/-- Index of the first occurrence of `c` in `s` (meaningful when `c ∈ s`). -/
def firstIdx (s : List Char) (c : Char) : Nat :=
  s.findIdx (· = c)

/-- Index of the last occurrence of `c` in `s` (meaningful when `c ∈ s`). -/
def lastIdx (s : List Char) (c : Char) : Nat :=
  s.length - 1 - s.reverse.findIdx (· = c)

/-! ### `apply_migrations` (apply_migrations.py lines 13-84)

The database is modelled by the contents of the `applied_migrations` table
plus the list of migration files whose SQL effects have been committed.
`cur.execute(migration_sql)` is modelled by an outcome oracle per file name:
it either succeeds, raises `psycopg2.errors.DuplicateObject`, or raises some
other exception. -/

/-- Outcome of executing one migration file's SQL. -/
inductive ExecOutcome where
  | success
  | duplicateObject (msg : String)
  | otherError (msg : String)
deriving DecidableEq, Repr

/-- Database state: migration files whose SQL effects are committed, and the
rows of the `applied_migrations` table. -/
structure DBState where
  committedEffects : List String
  appliedTable : List String
deriving DecidableEq, Repr

/-- Result of one `apply_migrations` run: final database state, the migration
files whose SQL was submitted to `cur.execute`, and the message of the
exception that aborted the run, if any. -/
structure RunResult where
  db : DBState
  executed : List String
  aborted : Option String
deriving DecidableEq, Repr

/-- Lines 63-73: `INSERT INTO applied_migrations ... ; commit`, with
`UniqueViolation` (name already present) caught and rolled back. -/
def recordApplied (st : DBState) (name : String) : DBState :=
  if name ∈ st.appliedTable then st
  else { st with appliedTable := st.appliedTable ++ [name] }

/-- Lines 43-73: the loop over migration files. `applied` is the snapshot of
the `applied_migrations` table read before the loop (lines 39-40).
Per file not in `applied`: on success, commit the file's effects and record
it; on `DuplicateObject`, roll back and still record it; on any other
exception, roll back and re-raise, aborting the run. -/
def runLoop (o : String → ExecOutcome) (applied : List String) :
    DBState → List String → List String → RunResult
  | st, trace, [] => ⟨st, trace, none⟩
  | st, trace, f :: fs =>
    if f ∈ applied then runLoop o applied st trace fs
    else
      match o f with
      | .success =>
          let st1 : DBState := { st with committedEffects := st.committedEffects ++ [f] }
          runLoop o applied (recordApplied st1 f) (trace ++ [f]) fs
      | .duplicateObject _ =>
          runLoop o applied (recordApplied st f) (trace ++ [f]) fs
      | .otherError msg => ⟨st, trace ++ [f], some msg⟩

/-- Lexicographic comparison of character lists by code point, as Python
compares strings. -/
def lexLe (a b : List Char) : Bool :=
  match a, b with
  | [], _ => true
  | _ :: _, [] => false
  | c :: a1, d :: b1 => if c = d then lexLe a1 b1 else decide (c < d)

/-- Python's `<=` on strings: lexicographic by code point. -/
def strLe (a b : String) : Bool :=
  lexLe a.toList b.toList

/-- Python `s.endswith(suffix)`. -/
def pyEndsWith (s suffix : String) : Bool :=
  decide (suffix.toList <:+ s.toList)

/-- Line 36: `sorted([f for f in os.listdir(migrations_dir) if f.endswith('.sql')])`. -/
def migrationFiles (listing : List String) : List String :=
  List.insertionSort (fun a b => strLe a b = true)
    (listing.filter (fun f => pyEndsWith f ".sql"))

/-- `apply_migrations()` for a given directory listing and execution oracle:
read the applied-set snapshot, then run the loop over the sorted `.sql` files. -/
def apply_migrations (o : String → ExecOutcome) (listing : List String)
    (st : DBState) : RunResult :=
  runLoop o st.appliedTable st [] (migrationFiles listing)

/-- Repeated runs of `apply_migrations` over the same directory listing, each
run with its own execution oracle, threading the database state through. -/
def runsFrom (listing : List String) : DBState → List (String → ExecOutcome) → List RunResult
  | _, [] => []
  | st, o :: os => apply_migrations o listing st :: runsFrom listing (apply_migrations o listing st).db os

/-- Database state after a sequence of `apply_migrations` runs. -/
def finalState (listing : List String) (st : DBState) :
    List (String → ExecOutcome) → DBState
  | [] => st
  | o :: os => finalState listing (apply_migrations o listing st).db os

/-- Invariant for migration `g`: its effects are committed at most once, and
once committed it is recorded in the `applied_migrations` table. -/
def goodState (g : String) (st : DBState) : Prop :=
  st.committedEffects.count g ≤ 1 ∧
  (g ∈ st.committedEffects → g ∈ st.appliedTable)

/-! ### `WasteAnalyzer.generate_suggestions` (waste_analysis.py lines 165-207)

JSON values are modelled by an inductive type; Python dicts become
association lists in insertion order. `json.loads` success or failure is
modelled by an `Option Json` input. -/

/-- A parsed JSON value. -/
inductive Json where
  | null
  | bool (b : Bool)
  | num (n : Int)
  | str (s : String)
  | arr (elems : List Json)
  | obj (fields : List (String × Json))

/-- Python dict lookup on an association list: first binding of `k`. -/
def getKey (o : List (String × Json)) (k : String) : Option Json :=
  match o with
  | [] => none
  | (k1, v) :: rest => if k1 = k then some v else getKey rest k

/-- Python dict assignment `d[k] = v`: replace the binding of `k`, or append
it when absent. -/
def setKey (o : List (String × Json)) (k : String) (v : Json) : List (String × Json) :=
  match o with
  | [] => [(k, v)]
  | (k1, v1) :: rest => if k1 = k then (k, v) :: rest else (k1, v1) :: setKey rest k v

/-- Lines 175-179: the twelve required suggestion fields. -/
def required_fields : List String :=
  ["id", "title", "description", "difficulty", "timeRequired",
   "tools", "materials", "estimatedCost", "steps", "safetyTips",
   "ecoImpact", "videoSearchQuery"]

/-- Lines 182-183: the fields backfilled with `''`; the remaining required
fields are backfilled with `[]`. -/
def scalarFields : List String :=
  ["id", "title", "description", "difficulty", "timeRequired",
   "estimatedCost", "videoSearchQuery"]

/-- Lines 180-183: `if field not in suggestion: suggestion[field] = '' or []`. -/
def backfillField (s : List (String × Json)) (field : String) : List (String × Json) :=
  if (getKey s field).isSome then s
  else setKey s field (if field ∈ scalarFields then .str "" else .arr [])

/-- Lines 186-190: the default `ecoImpact` object. -/
def ecoDefault : Json :=
  .obj [("co2Saved", .num 0), ("wasteReduced", .num 0), ("energySaved", .num 0)]

/-- Lines 185-190: replace `ecoImpact` by the default whenever it is absent
or not a dict. -/
def fixEco (s : List (String × Json)) : List (String × Json) :=
  match getKey s "ecoImpact" with
  | some (.obj _) => s
  | _ => setKey s "ecoImpact" ecoDefault

/-- Lines 174-190: the validation pass applied to one suggestion dict. -/
def fixSuggestion (s : List (String × Json)) : List (String × Json) :=
  fixEco (required_fields.foldl backfillField s)

/-- The loop `for suggestion in suggestions_data['suggestions']` over a JSON
array: each element must be a dict (any other element makes the Python field
accesses raise `TypeError`, modelled by `none`). -/
def fixSuggestions : List Json → Option (List Json)
  | [] => some []
  | .obj s :: rest => (fixSuggestions rest).map (Json.obj (fixSuggestion s) :: ·)
  | _ :: _ => none

/-- Result of `generate_suggestions`: the `success: True` dict carrying the
final `suggestions` value, or a `success: False` dict carrying an error
string. -/
inductive GenResult where
  | ok (suggestions : Json)
  | err (msg : String)

/-- Whether a parsed value is a dict containing the key `'suggestions'`
(line 170's validation). -/
def isDictWithSuggestions : Json → Bool
  | .obj fields => (getKey fields "suggestions").isSome
  | _ => false

/-- Lines 165-207 after the API call: parse the sanitized response
(`none` = `json.JSONDecodeError`), validate the structure, run the
per-suggestion validation pass, and wrap errors. Iterating a non-empty
string, a non-empty dict, or a non-iterable raises and lands in the outer
`except`; empty iterables leave the loop body unexecuted. -/
def generate_suggestions_core (parsed : Option Json) : GenResult :=
  match parsed with
  | none => .err "Failed to generate valid suggestions"
  | some j =>
    match j with
    | .obj fields =>
      match getKey fields "suggestions" with
      | some v =>
        match v with
        | .arr l =>
          match fixSuggestions l with
          | some l1 => .ok (.arr l1)
          | none => .err "TypeError while validating suggestions"
        | .str s => if s = "" then .ok (.str "") else .err "TypeError while validating suggestions"
        | .obj o => if o.isEmpty then .ok (.obj []) else .err "TypeError while validating suggestions"
        | _ => .err "not iterable"
      | none => .err "Invalid response format"
    | _ => .err "Invalid response format"

/-! ### `WasteAnalyzer.analyze_image` (waste_analysis.py lines 27-64) -/

/-- Outcome of the Groq chat-completion call: the message content, or the
message of a raised exception. -/
inductive ApiResult where
  | ok (content : String)
  | exn (msg : String)
deriving DecidableEq, Repr

/-- The dict returned by `analyze_image`, keyed `success` / `error` /
`analysis`. -/
structure AnalyzeResult where
  success : Bool
  error : Option String
  analysis : Option String
deriving DecidableEq, Repr

/-- Python truthiness of the `image_url` argument (`None` or a string). -/
def isFalsyUrl : Option String → Bool
  | none => true
  | some s => s.isEmpty

/-- `analyze_image(image_url)` with the API call modelled by an oracle:
falsy URL short-circuits to an error dict; otherwise the API outcome is
wrapped, exceptions becoming `success: False` error dicts. -/
def analyze_image (image_url : Option String) (api : String → ApiResult) : AnalyzeResult :=
  if isFalsyUrl image_url then
    ⟨false, some "No image URL provided", none⟩
  else
    match image_url with
    | none => ⟨false, some "No image URL provided", none⟩
    | some u =>
      match api u with
      | .ok content => ⟨true, none, some content⟩
      | .exn msg => ⟨false, some msg, none⟩

/-! ### `UpcyclingChatbot.get_fallback_response` (chatbot.py lines 72-82) -/

/-- Python `str.lower()`: lowercase the message character by character. -/
def pyLower (s : String) : String :=
  ⟨s.data.map Char.toLower⟩

/-- Python `needle in hay` on strings: contiguous substring test. -/
def pyIn (needle hay : String) : Bool :=
  decide (needle.toList <:+: hay.toList)

/-- `self.response_patterns['greetings']`. -/
def greetings : List String := ["hi", "hello", "hey", "hola"]

/-- `self.response_patterns['identity']`. -/
def identityWords : List String := ["name", "who are you", "what are you", "what is waste2wonder"]

/-- `self.response_patterns['capabilities']`. -/
def capabilitiesWords : List String := ["can you do", "help", "what do you do", "how can you help"]

/-- Line 77's reply. -/
def greetingResponse : String :=
  "Hi! I'm Wonder, your Waste2Wonder assistant. I'm here to help with waste management and upcycling!"

/-- Line 79's reply. -/
def identityResponse : String :=
  "I'm Wonder, the AI assistant for Waste2Wonder. I focus on helping with waste management and upcycling ideas!"

/-- Line 81's reply. -/
def capabilitiesResponse : String :=
  "I can help you with waste management tips, upcycling ideas, and sustainability advice. Just ask me anything about reducing waste or reusing materials!"

/-- Line 82's reply. -/
def genericResponse : String :=
  "I'd love to help you upcycle your items! Could you tell me what materials you'd like to repurpose?"

/-- `get_fallback_response(message)`: lowercase the message, then test the
three keyword lists in order and return the matching canned reply, falling
through to the generic prompt. -/
def get_fallback_response (message : String) : String :=
  let m := pyLower message
  if greetings.any (fun g => pyIn g m) then greetingResponse
  else if identityWords.any (fun w => pyIn w m) then identityResponse
  else if capabilitiesWords.any (fun w => pyIn w m) then capabilitiesResponse
  else genericResponse

/-! ## Lemmas about `sanitize_response` -/

theorem strFind_of_mem {s : List Char} {c : Char} (h : c ∈ s) :
    strFind s c = (firstIdx s c : Int) := by
  rw [strFind, if_pos h]; rfl

theorem strRfind_of_mem {s : List Char} {c : Char} (h : c ∈ s) :
    strRfind s c = (lastIdx s c : Int) := by
  rw [strRfind, if_pos h]; rfl

theorem strFind_of_not_mem {s : List Char} {c : Char} (h : c ∉ s) :
    strFind s c = -1 := by
  rw [strFind, if_neg h]

theorem strRfind_of_not_mem {s : List Char} {c : Char} (h : c ∉ s) :
    strRfind s c = -1 := by
  rw [strRfind, if_neg h]

theorem dropTake_substring (s : List Char) (a b : Nat) :
    (s.take b).drop a <:+: s :=
  ⟨(s.take b).take a, s.drop b, by rw [List.take_append_drop, List.take_append_drop]⟩

theorem sanitize_of_both_mem {s : List Char} (h1 : '{' ∈ s) (h2 : '}' ∈ s) :
    sanitize_response s = (s.take (lastIdx s '}' + 1)).drop (firstIdx s '{') := by
  unfold sanitize_response
  rw [strFind_of_mem h1, strRfind_of_mem h2, if_pos (by constructor <;> omega)]
  unfold pySlice
  have ha : ((firstIdx s '{' : Int)).toNat = firstIdx s '{' := by omega
  have hb : ((lastIdx s '}' : Int) + 1).toNat = lastIdx s '}' + 1 := by omega
  rw [ha, hb]

theorem sanitize_of_no_lbrace {s : List Char} (h1 : '{' ∉ s) :
    sanitize_response s = s := by
  unfold sanitize_response
  rw [strFind_of_not_mem h1, if_neg (by simp)]

theorem sanitize_substring (s : List Char) : sanitize_response s <:+: s := by
  unfold sanitize_response
  dsimp only
  split
  · exact dropTake_substring s _ _
  · exact List.infix_rfl

theorem sanitize_of_lbrace_no_rbrace {s : List Char} (h1 : '{' ∈ s) (h2 : '}' ∉ s) :
    sanitize_response s = [] := by
  unfold sanitize_response
  rw [strFind_of_mem h1, strRfind_of_not_mem h2,
    if_pos (by constructor <;> omega)]
  unfold pySlice
  simp

/-- C1: for every input string, `sanitize_response` returns the contiguous
slice of the input from the index of the first opening brace through the
index of the last closing brace inclusive whenever the input contains both
braces; it returns the input unchanged whenever the input contains neither
brace; and in every case the result is a contiguous substring of the
input. -/
theorem C1_sanitize_response_slice (s : List Char) :
    (('{' ∈ s ∧ '}' ∈ s) →
      sanitize_response s = (s.take (lastIdx s '}' + 1)).drop (firstIdx s '{')) ∧
    (('{' ∉ s ∧ '}' ∉ s) → sanitize_response s = s) ∧
    sanitize_response s <:+: s :=
  ⟨fun h => sanitize_of_both_mem h.1 h.2,
   fun h => sanitize_of_no_lbrace h.1,
   sanitize_substring s⟩

/-- Witness for C1 at the concrete inputs `"x{a}y"` and `"abc"`. -/
theorem C1_sanitize_response_slice_witness :
    sanitize_response "x{a}y".toList = "{a}".toList ∧
    sanitize_response "abc".toList = "abc".toList := by
  constructor
  · exact ((C1_sanitize_response_slice "x{a}y".toList).1
      ⟨by decide, by decide⟩).trans (by decide)
  · exact (C1_sanitize_response_slice "abc".toList).2.1 ⟨by decide, by decide⟩

/-- C8: for every input string that contains an opening brace but no closing
brace, `rfind` yields `-1`, so `end_idx` is `0`, which still passes the
`end_idx != -1` guard; the returned slice is therefore empty rather than the
input or a JSON object. -/
theorem C8_sanitize_response_empty (s : List Char) (h1 : '{' ∈ s) (h2 : '}' ∉ s) :
    strRfind s '}' = -1 ∧ sanitize_response s = [] :=
  ⟨strRfind_of_not_mem h2, sanitize_of_lbrace_no_rbrace h1 h2⟩

/-- Witness for C8 at the concrete input `['{', 'a']`. -/
theorem C8_sanitize_response_empty_witness :
    strRfind ['{', 'a'] '}' = -1 ∧ sanitize_response ['{', 'a'] = [] :=
  C8_sanitize_response_empty ['{', 'a'] (by decide) (by decide)

/-! ## Lemmas about `apply_migrations` -/

theorem lexLe_iff_not_lex : ∀ a b : List Char,
    lexLe a b = true ↔ ¬ List.Lex (· < ·) b a
  | [], b =>
    iff_of_true rfl (List.Lex.not_nil_right _ _)
  | c :: a1, [] =>
    iff_of_false (by simp [lexLe]) (fun h => h List.Lex.nil)
  | c :: a1, d :: b1 => by
    simp only [lexLe]
    by_cases hcd : c = d
    · subst hcd
      rw [if_pos rfl, lexLe_iff_not_lex a1 b1]
      exact (not_congr List.Lex.cons_iff).symm
    · rw [if_neg hcd]
      constructor
      · intro hlt hlex
        have hlt : c < d := of_decide_eq_true hlt
        cases hlex with
        | cons h => exact hcd rfl
        | rel h => exact absurd hlt (asymm h)
      · intro hnl
        refine decide_eq_true ?_
        have hdc : ¬ d < c := fun h => hnl (List.Lex.rel h)
        exact lt_of_le_of_ne (not_lt.mp hdc) hcd

/-- `strLe` agrees with Mathlib's linear order on `String`. -/
theorem strLe_iff (a b : String) : strLe a b = true ↔ a ≤ b := by
  rw [strLe, lexLe_iff_not_lex, String.le_iff_toList_le]
  exact not_lt (a := b.toList) (b := a.toList)

theorem recordApplied_committed (st : DBState) (f : String) :
    (recordApplied st f).committedEffects = st.committedEffects := by
  unfold recordApplied
  split <;> rfl

theorem recordApplied_self_mem (st : DBState) (f : String) :
    f ∈ (recordApplied st f).appliedTable := by
  unfold recordApplied
  split
  · assumption
  · simp

theorem recordApplied_mono (st : DBState) (f : String) :
    st.appliedTable ⊆ (recordApplied st f).appliedTable := by
  unfold recordApplied
  split
  · exact fun _ h => h
  · exact fun x h => by simp [h]

theorem recordApplied_mem_cases {st : DBState} {f x : String}
    (h : x ∈ (recordApplied st f).appliedTable) :
    x ∈ st.appliedTable ∨ x = f := by
  unfold recordApplied at h
  split at h
  · exact Or.inl h
  · simpa using h

/-- The `trace` accumulator of `runLoop` only prepends to the executed list. -/
theorem runLoop_trace (o : String → ExecOutcome) (applied : List String)
    (fs : List String) : ∀ (st : DBState) (trace : List String),
    runLoop o applied st trace fs =
      ⟨(runLoop o applied st [] fs).db,
       trace ++ (runLoop o applied st [] fs).executed,
       (runLoop o applied st [] fs).aborted⟩ := by
  induction fs with
  | nil => intro st trace; simp [runLoop]
  | cons f fs ih =>
    intro st trace
    by_cases h : f ∈ applied
    · simp only [runLoop, if_pos h]
      rw [ih st trace, ih st []]
    · cases ho : o f with
      | success =>
        simp only [runLoop, if_neg h, ho]
        rw [ih _ (trace ++ [f]), ih _ ([] ++ [f])]
        simp [List.append_assoc]
      | duplicateObject m =>
        simp only [runLoop, if_neg h, ho]
        rw [ih _ (trace ++ [f]), ih _ ([] ++ [f])]
        simp [List.append_assoc]
      | otherError m =>
        simp only [runLoop, if_neg h, ho]
        rfl

/-- Committed effects after a run are the initial ones followed, in order, by
exactly the executed files whose execution succeeded. -/
theorem runLoop_committed (o : String → ExecOutcome) (applied : List String)
    (fs : List String) : ∀ st : DBState,
    (runLoop o applied st [] fs).db.committedEffects =
      st.committedEffects ++
        (runLoop o applied st [] fs).executed.filter
          (fun g => decide (o g = ExecOutcome.success)) := by
  induction fs with
  | nil => intro st; simp [runLoop]
  | cons f fs ih =>
    intro st
    by_cases h : f ∈ applied
    · simp only [runLoop, if_pos h]
      exact ih st
    · cases ho : o f with
      | success =>
        simp only [runLoop, if_neg h, ho]
        rw [runLoop_trace o applied fs _ ([] ++ [f]), ih]
        simp [recordApplied_committed, ho, List.append_assoc]
      | duplicateObject m =>
        simp only [runLoop, if_neg h, ho]
        rw [runLoop_trace o applied fs _ ([] ++ [f]), ih]
        simp [recordApplied_committed, ho]
      | otherError m =>
        simp only [runLoop, if_neg h, ho]
        simp [ho]

/-- The executed files form a subsequence of the file list. -/
theorem runLoop_executed_sublist (o : String → ExecOutcome) (applied : List String)
    (fs : List String) : ∀ st : DBState,
    (runLoop o applied st [] fs).executed.Sublist fs := by
  induction fs with
  | nil => intro st; simp [runLoop]
  | cons f fs ih =>
    intro st
    by_cases h : f ∈ applied
    · simp only [runLoop, if_pos h]
      exact (ih st).cons f
    · cases ho : o f with
      | success =>
        simp only [runLoop, if_neg h, ho]
        rw [runLoop_trace o applied fs _ ([] ++ [f])]
        simpa using (ih _).cons₂ f
      | duplicateObject m =>
        simp only [runLoop, if_neg h, ho]
        rw [runLoop_trace o applied fs _ ([] ++ [f])]
        simpa using (ih _).cons₂ f
      | otherError m =>
        simp only [runLoop, if_neg h, ho]
        simp

/-- Only files outside the applied-set snapshot are ever executed. -/
theorem runLoop_executed_not_applied (o : String → ExecOutcome) (applied : List String)
    (fs : List String) : ∀ (st : DBState) (g : String),
    g ∈ (runLoop o applied st [] fs).executed → g ∉ applied := by
  induction fs with
  | nil => intro st g hg; simp [runLoop] at hg
  | cons f fs ih =>
    intro st g hg
    by_cases h : f ∈ applied
    · simp only [runLoop, if_pos h] at hg
      exact ih st g hg
    · cases ho : o f with
      | success =>
        simp only [runLoop, if_neg h, ho] at hg
        rw [runLoop_trace o applied fs _ ([] ++ [f])] at hg
        simp at hg
        rcases hg with rfl | hg
        · exact h
        · exact ih _ g hg
      | duplicateObject m =>
        simp only [runLoop, if_neg h, ho] at hg
        rw [runLoop_trace o applied fs _ ([] ++ [f])] at hg
        simp at hg
        rcases hg with rfl | hg
        · exact h
        · exact ih _ g hg
      | otherError m =>
        simp only [runLoop, if_neg h, ho] at hg
        simp at hg
        subst hg
        exact h

/-- The `applied_migrations` table only grows during a run. -/
theorem runLoop_applied_mono (o : String → ExecOutcome) (applied : List String)
    (fs : List String) : ∀ st : DBState,
    st.appliedTable ⊆ (runLoop o applied st [] fs).db.appliedTable := by
  induction fs with
  | nil => intro st; simp [runLoop, List.Subset.refl]
  | cons f fs ih =>
    intro st
    by_cases h : f ∈ applied
    · simp only [runLoop, if_pos h]
      exact ih st
    · cases ho : o f with
      | success =>
        simp only [runLoop, if_neg h, ho]
        rw [runLoop_trace o applied fs _ ([] ++ [f])]
        exact fun x hx => ih _ (recordApplied_mono _ f hx)
      | duplicateObject m =>
        simp only [runLoop, if_neg h, ho]
        rw [runLoop_trace o applied fs _ ([] ++ [f])]
        exact fun x hx => ih _ (recordApplied_mono _ f hx)
      | otherError m =>
        simp only [runLoop, if_neg h, ho]
        exact List.Subset.refl _

/-- A successfully executed file ends the run recorded in the
`applied_migrations` table. -/
theorem runLoop_success_recorded (o : String → ExecOutcome) (applied : List String)
    (fs : List String) : ∀ (st : DBState) (g : String),
    g ∈ (runLoop o applied st [] fs).executed → o g = ExecOutcome.success →
    g ∈ (runLoop o applied st [] fs).db.appliedTable := by
  induction fs with
  | nil => intro st g hg _; simp [runLoop] at hg
  | cons f fs ih =>
    intro st g hg hs
    by_cases h : f ∈ applied
    · simp only [runLoop, if_pos h] at hg ⊢
      exact ih st g hg hs
    · cases ho : o f with
      | success =>
        simp only [runLoop, if_neg h, ho] at hg ⊢
        rw [runLoop_trace o applied fs _ ([] ++ [f])] at hg ⊢
        simp at hg ⊢
        rcases hg with rfl | hg
        · exact runLoop_applied_mono o applied fs _ (recordApplied_self_mem _ g)
        · exact ih _ g hg hs
      | duplicateObject m =>
        simp only [runLoop, if_neg h, ho] at hg ⊢
        rw [runLoop_trace o applied fs _ ([] ++ [f])] at hg ⊢
        simp at hg ⊢
        rcases hg with rfl | hg
        · rw [hs] at ho
          exact absurd ho (by simp)
        · exact ih _ g hg hs
      | otherError m =>
        simp only [runLoop, if_neg h, ho] at hg ⊢
        simp at hg
        subst hg
        rw [hs] at ho
        exact absurd ho (by simp)

/-- One run preserves the at-most-once invariant, provided the listing has no
duplicate names and every listed file already in the table is also in the
snapshot. -/
theorem runLoop_preserves_good (o : String → ExecOutcome) (applied : List String)
    (g : String) (fs : List String) : ∀ st : DBState, fs.Nodup →
    (∀ x ∈ fs, x ∈ st.appliedTable → x ∈ applied) →
    goodState g st → goodState g (runLoop o applied st [] fs).db := by
  induction fs with
  | nil => intro st _ _ hg; simpa [runLoop] using hg
  | cons f fs ih =>
    intro st hnd hH hg
    have hffs : f ∉ fs := (List.nodup_cons.mp hnd).1
    by_cases h : f ∈ applied
    · simp only [runLoop, if_pos h]
      exact ih st (List.nodup_cons.mp hnd).2
        (fun x hx => hH x (List.mem_cons_of_mem f hx)) hg
    · cases ho : o f with
      | success =>
        simp only [runLoop, if_neg h, ho]
        rw [runLoop_trace o applied fs _ ([] ++ [f])]
        refine ih _ (List.nodup_cons.mp hnd).2 ?_ ?_
        · intro x hx hxa
          rcases recordApplied_mem_cases hxa with hxs | rfl
          · exact hH x (List.mem_cons_of_mem f hx) hxs
          · exact absurd hx hffs
        · constructor
          · rw [recordApplied_committed]
            by_cases hgf : g = f
            · subst hgf
              have hz : st.committedEffects.count g = 0 :=
                List.count_eq_zero.mpr fun hm => h (hH g (List.mem_cons_self g fs) (hg.2 hm))
              simp [List.count_append, hz]
            · simp [List.count_append, List.count_cons, hgf]
              exact hg.1
          · intro hm
            rw [recordApplied_committed] at hm
            rcases List.mem_append.mp hm with hm | hm
            · exact recordApplied_mono _ f (hg.2 hm)
            · have : g = f := by simpa using hm
              subst this
              exact recordApplied_self_mem _ g
      | duplicateObject m =>
        simp only [runLoop, if_neg h, ho]
        rw [runLoop_trace o applied fs _ ([] ++ [f])]
        refine ih _ (List.nodup_cons.mp hnd).2 ?_ ?_
        · intro x hx hxa
          rcases recordApplied_mem_cases hxa with hxs | rfl
          · exact hH x (List.mem_cons_of_mem f hx) hxs
          · exact absurd hx hffs
        · refine ⟨?_, ?_⟩
          · rw [recordApplied_committed]
            exact hg.1
          · intro hm
            rw [recordApplied_committed] at hm
            exact recordApplied_mono _ f (hg.2 hm)
      | otherError m =>
        simp only [runLoop, if_neg h, ho]
        exact hg

/-- The at-most-once invariant is preserved across any sequence of runs. -/
theorem finalState_good (listing : List String) (g : String)
    (os : List (String → ExecOutcome)) : ∀ st : DBState,
    listing.Nodup → goodState g st → goodState g (finalState listing st os) := by
  induction os with
  | nil => intro st _ hg; exact hg
  | cons o os ih =>
    intro st hnd hg
    show goodState g (finalState listing (apply_migrations o listing st).db os)
    refine ih _ hnd ?_
    have hmf : (migrationFiles listing).Nodup :=
      ((List.perm_insertionSort _ _).nodup_iff).mpr (hnd.filter _)
    exact runLoop_preserves_good o st.appliedTable g (migrationFiles listing) st hmf
      (fun x _ hx => hx) hg

/-- C2 as stated is false: a migration file whose SQL execution raises a
non-`DuplicateObject` exception aborts the run instead of continuing with
the next file. Concretely, with files `a.sql` and `b.sql` where `a.sql`
raises, the run aborts with that error and `b.sql` is never executed. -/
theorem C2_counterexample :
    (apply_migrations (fun f => if f = "a.sql" then .otherError "boom" else .success)
        ["a.sql", "b.sql"] ⟨[], []⟩).aborted = some "boom" ∧
    "b.sql" ∉ (apply_migrations (fun f => if f = "a.sql" then .otherError "boom" else .success)
        ["a.sql", "b.sql"] ⟨[], []⟩).executed := by
  decide

/-- C2 amended: only a `psycopg2.errors.DuplicateObject` exception is caught
with a rollback and the loop continuing to the next file (the file still
being recorded as applied); any other exception is rolled back and
re-raised, aborting the run with no further file processed. -/
theorem C2_exception_handling (o : String → ExecOutcome) (applied : List String)
    (st : DBState) (trace : List String) (f : String) (fs : List String)
    (hf : f ∉ applied) :
    (∀ m, o f = .duplicateObject m →
      runLoop o applied st trace (f :: fs) =
        runLoop o applied (recordApplied st f) (trace ++ [f]) fs) ∧
    (∀ m, o f = .otherError m →
      runLoop o applied st trace (f :: fs) = ⟨st, trace ++ [f], some m⟩) := by
  constructor
  · intro m hm
    simp only [runLoop, if_neg hf, hm]
  · intro m hm
    simp only [runLoop, if_neg hf, hm]

/-- Witness for C2's amended theorem at a concrete file and oracle. -/
theorem C2_exception_handling_witness :
    (runLoop (fun _ => ExecOutcome.duplicateObject "dup") [] ⟨[], []⟩ [] ["a.sql"] =
      runLoop (fun _ => ExecOutcome.duplicateObject "dup") []
        (recordApplied ⟨[], []⟩ "a.sql") ["a.sql"] []) ∧
    (runLoop (fun _ => ExecOutcome.otherError "boom") [] ⟨[], []⟩ [] ["a.sql"] =
      ⟨⟨[], []⟩, [] ++ ["a.sql"], some "boom"⟩) :=
  ⟨(C2_exception_handling (fun _ => ExecOutcome.duplicateObject "dup") [] ⟨[], []⟩ []
      "a.sql" [] (by decide)).1 "dup" rfl,
   (C2_exception_handling (fun _ => ExecOutcome.otherError "boom") [] ⟨[], []⟩ []
      "a.sql" [] (by decide)).2 "boom" rfl⟩

/-- C4: each migration file is executed as one batch, committed exactly when
its execution succeeds and rolled back when it raises: the committed effects
after a run are the initial ones plus precisely the successfully executed
files, and an executed file whose execution raised leaves the multiplicity
of its effects unchanged. -/
theorem C4_per_file_atomicity (o : String → ExecOutcome) (listing : List String)
    (st : DBState) :
    (apply_migrations o listing st).db.committedEffects =
      st.committedEffects ++
        (apply_migrations o listing st).executed.filter
          (fun g => decide (o g = ExecOutcome.success)) ∧
    (∀ f ∈ (apply_migrations o listing st).executed, o f ≠ ExecOutcome.success →
      (apply_migrations o listing st).db.committedEffects.count f =
        st.committedEffects.count f) := by
  have hc := runLoop_committed o st.appliedTable (migrationFiles listing) st
  refine ⟨hc, fun f hf hns => ?_⟩
  show (runLoop o st.appliedTable st [] (migrationFiles listing)).db.committedEffects.count f = _
  rw [hc, List.count_append]
  have hz : ((runLoop o st.appliedTable st [] (migrationFiles listing)).executed.filter
      (fun g => decide (o g = ExecOutcome.success))).count f = 0 := by
    refine List.count_eq_zero.mpr fun hm => ?_
    have := List.of_mem_filter hm
    exact hns (of_decide_eq_true this)
  rw [hz]
  omega

/-- Witness for C4 at a run where `b.sql` fails: its effects stay
uncommitted. -/
theorem C4_per_file_atomicity_witness :
    (apply_migrations (fun f => if f = "b.sql" then ExecOutcome.otherError "x" else .success)
        ["a.sql", "b.sql"] ⟨[], []⟩).db.committedEffects.count "b.sql" =
      (DBState.mk [] []).committedEffects.count "b.sql" :=
  (C4_per_file_atomicity (fun f => if f = "b.sql" then ExecOutcome.otherError "x" else .success)
      ["a.sql", "b.sql"] ⟨[], []⟩).2 "b.sql" (by decide) (by decide)

/-- C5 as stated is false: a migration file whose execution raises is not
recorded, so a later run executes its SQL again — here `m.sql` is executed
in both of two consecutive runs. -/
theorem C5_counterexample :
    (runsFrom ["m.sql"] ⟨[], []⟩
      [fun _ => .otherError "x", fun _ => .success]).map RunResult.executed
      = [["m.sql"], ["m.sql"]] := by
  decide

/-- C5 amended: a file already recorded in the snapshot of
`applied_migrations` is never executed in that run; a successfully executed
file ends the run recorded; and across repeated runs each migration file's
SQL is *successfully* executed (committed) at most once — a file whose
execution raised may be re-executed by a later run. -/
theorem C5_applied_tracking (o : String → ExecOutcome) (listing : List String)
    (st : DBState) (f : String) :
    (f ∈ st.appliedTable → f ∉ (apply_migrations o listing st).executed) ∧
    (f ∈ (apply_migrations o listing st).executed → o f = ExecOutcome.success →
      f ∈ (apply_migrations o listing st).db.appliedTable) ∧
    (∀ os, listing.Nodup → f ∉ st.committedEffects →
      (finalState listing st os).committedEffects.count f ≤ 1) := by
  refine ⟨?_, ?_, ?_⟩
  · intro hmem hex
    exact runLoop_executed_not_applied o st.appliedTable (migrationFiles listing) st f hex hmem
  · exact runLoop_success_recorded o st.appliedTable (migrationFiles listing) st f
  · intro os hnd hnc
    have hg : goodState f st :=
      ⟨by rw [List.count_eq_zero.mpr hnc]; omega, fun hm => absurd hm hnc⟩
    exact (finalState_good listing f os st hnd hg).1

/-- Witness for C5's amended theorem at concrete runs. -/
theorem C5_applied_tracking_witness :
    "a.sql" ∉ (apply_migrations (fun _ => ExecOutcome.success) ["a.sql"]
        ⟨[], ["a.sql"]⟩).executed ∧
    (finalState ["a.sql"] ⟨[], []⟩
        [fun _ => ExecOutcome.success, fun _ => ExecOutcome.success]).committedEffects.count
        "a.sql" ≤ 1 :=
  ⟨(C5_applied_tracking (fun _ => ExecOutcome.success) ["a.sql"] ⟨[], ["a.sql"]⟩ "a.sql").1
      (by decide),
   (C5_applied_tracking (fun _ => ExecOutcome.success) ["a.sql"] ⟨[], []⟩ "a.sql").2.2
      [fun _ => ExecOutcome.success, fun _ => ExecOutcome.success] (by decide) (by decide)⟩

/-- C6: `apply_migrations` processes exactly the listed files whose names end
in `.sql`, in ascending lexicographic order, in a single linear pass: the
processed list is a sorted permutation of the `.sql` filter of the listing,
and the executed files traverse it once in order. -/
theorem C6_migration_file_selection (o : String → ExecOutcome)
    (listing : List String) (st : DBState) :
    (∀ f, f ∈ migrationFiles listing ↔ (f ∈ listing ∧ pyEndsWith f ".sql" = true)) ∧
    List.Perm (migrationFiles listing) (listing.filter (fun f => pyEndsWith f ".sql")) ∧
    List.Sorted (· ≤ ·) (migrationFiles listing) ∧
    (apply_migrations o listing st).executed.Sublist (migrationFiles listing) := by
  have hperm : List.Perm (migrationFiles listing)
      (listing.filter (fun f => pyEndsWith f ".sql")) :=
    List.perm_insertionSort _ _
  refine ⟨?_, hperm, ?_, ?_⟩
  · intro f
    rw [hperm.mem_iff, List.mem_filter]
  · letI : IsTotal String (fun a b => strLe a b = true) :=
      ⟨fun a b => (le_total a b).imp (strLe_iff a b).mpr (strLe_iff b a).mpr⟩
    letI : IsTrans String (fun a b => strLe a b = true) :=
      ⟨fun a b c hab hbc =>
        (strLe_iff a c).mpr (le_trans ((strLe_iff a b).mp hab) ((strLe_iff b c).mp hbc))⟩
    have hs := List.sorted_insertionSort (fun a b => strLe a b = true)
      (listing.filter (fun f => pyEndsWith f ".sql"))
    exact List.Pairwise.imp (fun h => (strLe_iff _ _).mp h) hs
  · exact runLoop_executed_sublist o st.appliedTable (migrationFiles listing) st

/-! ## Lemmas about `generate_suggestions` -/

theorem getKey_setKey_self (o : List (String × Json)) (k : String) (v : Json) :
    getKey (setKey o k v) k = some v := by
  induction o with
  | nil => simp [setKey, getKey]
  | cons p rest ih =>
    obtain ⟨k1, v1⟩ := p
    by_cases h : k1 = k
    · subst h
      simp [setKey, getKey]
    · simp [setKey, getKey, h, ih]

theorem getKey_setKey_ne (o : List (String × Json)) (k : String) (v : Json)
    (k' : String) (h : k ≠ k') :
    getKey (setKey o k v) k' = getKey o k' := by
  induction o with
  | nil => simp [setKey, getKey, h]
  | cons p rest ih =>
    obtain ⟨k1, v1⟩ := p
    by_cases h1 : k1 = k
    · subst h1
      simp [setKey, getKey, h]
    · by_cases h2 : k1 = k'
      · subst h2
        simp [setKey, getKey, h1]
      · simp [setKey, getKey, h1, h2, ih]

theorem backfillField_preserves {s : List (String × Json)} {f : String} {v : Json}
    (h : getKey s f = some v) (g : String) :
    getKey (backfillField s g) f = some v := by
  unfold backfillField
  by_cases hg : (getKey s g).isSome
  · rw [if_pos hg]
    exact h
  · rw [if_neg hg]
    by_cases hgf : g = f
    · subst hgf
      rw [h] at hg
      exact absurd rfl hg
    · rw [getKey_setKey_ne _ _ _ _ hgf]
      exact h

theorem backfillField_none_of_ne {s : List (String × Json)} {f g : String}
    (hgf : g ≠ f) (h : getKey s f = none) :
    getKey (backfillField s g) f = none := by
  unfold backfillField
  split
  · exact h
  · rw [getKey_setKey_ne _ _ _ _ hgf]
    exact h

theorem backfillField_sets {s : List (String × Json)} {f : String}
    (h : getKey s f = none) :
    getKey (backfillField s f) f =
      some (if f ∈ scalarFields then .str "" else .arr []) := by
  unfold backfillField
  rw [if_neg (by simp [h])]
  exact getKey_setKey_self _ _ _

theorem foldl_backfill_preserves (fields : List String) :
    ∀ (s : List (String × Json)) (f : String) (v : Json), getKey s f = some v →
    getKey (fields.foldl backfillField s) f = some v := by
  induction fields with
  | nil => intro s f v h; exact h
  | cons g gs ih =>
    intro s f v h
    exact ih _ f v (backfillField_preserves h g)

theorem foldl_backfill_mem (fields : List String) :
    ∀ (s : List (String × Json)) (f : String), f ∈ fields → getKey s f = none →
    getKey (fields.foldl backfillField s) f =
      some (if f ∈ scalarFields then .str "" else .arr []) := by
  induction fields with
  | nil => intro s f h; exact absurd h (List.not_mem_nil f)
  | cons g gs ih =>
    intro s f hmem h
    by_cases hgf : g = f
    · subst hgf
      exact foldl_backfill_preserves gs _ g _ (backfillField_sets h)
    · rcases List.mem_cons.mp hmem with rfl | hmem
      · exact absurd rfl (Ne.symm hgf)
      · exact ih _ f hmem (backfillField_none_of_ne hgf h)

theorem foldl_backfill_isSome (fields : List String) (s : List (String × Json))
    (f : String) (hmem : f ∈ fields) :
    (getKey (fields.foldl backfillField s) f).isSome := by
  cases h : getKey s f with
  | none => rw [foldl_backfill_mem fields s f hmem h]; rfl
  | some v => rw [foldl_backfill_preserves fields s f v h]; rfl

theorem fixEco_preserves_ne {s : List (String × Json)} {f : String}
    (h : f ≠ "ecoImpact") :
    getKey (fixEco s) f = getKey s f := by
  unfold fixEco
  split
  · rfl
  · rw [getKey_setKey_ne _ _ _ _ (Ne.symm h)]

theorem fixEco_default {s : List (String × Json)}
    (h : ∀ o2, getKey s "ecoImpact" ≠ some (.obj o2)) :
    getKey (fixEco s) "ecoImpact" = some ecoDefault := by
  unfold fixEco
  split
  · rename_i o2 heq
    exact absurd heq (h o2)
  · exact getKey_setKey_self _ _ _

theorem fixEco_isSome (s : List (String × Json)) :
    (getKey (fixEco s) "ecoImpact").isSome := by
  unfold fixEco
  split
  · rename_i o2 heq
    rw [heq]
    rfl
  · rw [getKey_setKey_self _ _ _]
    rfl

theorem fixSuggestions_shape : ∀ (li l1 : List Json), fixSuggestions li = some l1 →
    ∀ x ∈ l1, ∃ s0, x = Json.obj (fixSuggestion s0) := by
  intro li
  induction li with
  | nil =>
    intro l1 h x hx
    simp [fixSuggestions] at h
    subst h
    exact absurd hx (List.not_mem_nil x)
  | cons j rest ih =>
    intro l1 h x hx
    cases j with
    | obj s0 =>
      simp only [fixSuggestions] at h
      cases hr : fixSuggestions rest with
      | none => rw [hr] at h; exact absurd h (by simp)
      | some r1 =>
        rw [hr] at h
        simp at h
        subst h
        rcases List.mem_cons.mp hx with rfl | hx
        · exact ⟨s0, rfl⟩
        · exact ih r1 hr x hx
    | null => exact absurd h (by simp [fixSuggestions])
    | bool b => exact absurd h (by simp [fixSuggestions])
    | num n => exact absurd h (by simp [fixSuggestions])
    | str s1 => exact absurd h (by simp [fixSuggestions])
    | arr l2 => exact absurd h (by simp [fixSuggestions])

/-- Witness for C6 at a concrete listing. -/
theorem C6_migration_file_selection_witness :
    (apply_migrations (fun _ => ExecOutcome.success) ["b.sql", "a.txt", "a.sql"]
        ⟨[], []⟩).executed.Sublist (migrationFiles ["b.sql", "a.txt", "a.sql"]) ∧
    ("a.sql" ∈ migrationFiles ["b.sql", "a.txt", "a.sql"] ↔
      ("a.sql" ∈ ["b.sql", "a.txt", "a.sql"] ∧ pyEndsWith "a.sql" ".sql" = true)) :=
  ⟨(C6_migration_file_selection (fun _ => ExecOutcome.success) ["b.sql", "a.txt", "a.sql"]
      ⟨[], []⟩).2.2.2,
   (C6_migration_file_selection (fun _ => ExecOutcome.success) ["b.sql", "a.txt", "a.sql"]
      ⟨[], []⟩).1 "a.sql"⟩

/-- C3: whenever `generate_suggestions` succeeds, every returned suggestion
is the validation pass applied to a suggestion dict, and that pass leaves all
twelve required fields present: an omitted scalar field becomes the empty
string, an omitted list field becomes the empty list, and `ecoImpact` becomes
the zeroed default whenever it was omitted or not a dict. -/
theorem C3_suggestion_backfill (s : List (String × Json)) :
    (∀ f ∈ required_fields, (getKey (fixSuggestion s) f).isSome) ∧
    (∀ f ∈ scalarFields, getKey s f = none →
      getKey (fixSuggestion s) f = some (.str "")) ∧
    (∀ f ∈ (["tools", "materials", "steps", "safetyTips"] : List String),
      getKey s f = none → getKey (fixSuggestion s) f = some (.arr [])) ∧
    ((∀ o2, getKey s "ecoImpact" ≠ some (.obj o2)) →
      getKey (fixSuggestion s) "ecoImpact" = some ecoDefault) ∧
    (∀ parsed l, generate_suggestions_core parsed = .ok (.arr l) →
      ∀ x ∈ l, ∃ s0, x = Json.obj (fixSuggestion s0)) := by
  have hscel : ∀ g ∈ scalarFields, g ≠ "ecoImpact" := by decide
  have hscreq : ∀ g ∈ scalarFields, g ∈ required_fields := by decide
  have hlsel : ∀ g ∈ (["tools", "materials", "steps", "safetyTips"] : List String),
      g ≠ "ecoImpact" := by decide
  have hlsreq : ∀ g ∈ (["tools", "materials", "steps", "safetyTips"] : List String),
      g ∈ required_fields := by decide
  have hlssc : ∀ g ∈ (["tools", "materials", "steps", "safetyTips"] : List String),
      g ∉ scalarFields := by decide
  refine ⟨?_, ?_, ?_, ?_, ?_⟩
  · intro f hf
    unfold fixSuggestion
    by_cases hfe : f = "ecoImpact"
    · subst hfe
      exact fixEco_isSome _
    · rw [fixEco_preserves_ne hfe]
      exact foldl_backfill_isSome _ _ _ hf
  · intro f hf h
    unfold fixSuggestion
    rw [fixEco_preserves_ne (hscel f hf),
      foldl_backfill_mem required_fields s f (hscreq f hf) h, if_pos hf]
  · intro f hf h
    unfold fixSuggestion
    rw [fixEco_preserves_ne (hlsel f hf),
      foldl_backfill_mem required_fields s f (hlsreq f hf) h,
      if_neg (hlssc f hf)]
  · intro h
    unfold fixSuggestion
    apply fixEco_default
    intro o2 heq
    cases hv : getKey s "ecoImpact" with
    | none =>
      rw [foldl_backfill_mem required_fields s _ (by decide) hv,
        if_neg (by decide)] at heq
      simp at heq
    | some v =>
      rw [foldl_backfill_preserves required_fields s _ v hv] at heq
      have hvo : v = .obj o2 := Option.some.inj heq
      exact h o2 (by rw [hv, hvo])
  · intro parsed l h x hx
    cases parsed with
    | none => exact absurd h (by simp [generate_suggestions_core])
    | some j =>
      cases j with
      | obj fields =>
        simp only [generate_suggestions_core] at h
        cases hk : getKey fields "suggestions" with
        | none =>
          rw [hk] at h
          exact absurd h (by simp)
        | some v =>
          rw [hk] at h
          cases v with
          | arr l2 =>
            dsimp only at h
            cases hfix : fixSuggestions l2 with
            | none =>
              rw [hfix] at h
              exact absurd h (by simp)
            | some l1 =>
              rw [hfix] at h
              simp only [GenResult.ok.injEq, Json.arr.injEq] at h
              subst h
              exact fixSuggestions_shape l2 l1 hfix x hx
          | str s2 =>
            dsimp only at h
            by_cases hs2 : s2 = "" <;> simp [hs2] at h
          | obj o =>
            dsimp only at h
            by_cases ho : o.isEmpty = true <;> simp [ho] at h
          | null => exact absurd h (by simp)
          | bool b => exact absurd h (by simp)
          | num n => exact absurd h (by simp)
      | null => exact absurd h (by simp [generate_suggestions_core])
      | bool b => exact absurd h (by simp [generate_suggestions_core])
      | num n => exact absurd h (by simp [generate_suggestions_core])
      | str s2 => exact absurd h (by simp [generate_suggestions_core])
      | arr l2 => exact absurd h (by simp [generate_suggestions_core])

/-- Witness for C3 at the empty suggestion dict. -/
theorem C3_suggestion_backfill_witness :
    getKey (fixSuggestion []) "title" = some (.str "") ∧
    getKey (fixSuggestion []) "tools" = some (.arr []) ∧
    getKey (fixSuggestion []) "ecoImpact" = some ecoDefault :=
  ⟨(C3_suggestion_backfill []).2.1 "title" (by decide) rfl,
   (C3_suggestion_backfill []).2.2.1 "tools" (by decide) rfl,
   (C3_suggestion_backfill []).2.2.2.1 (fun o2 h => Option.noConfusion h)⟩

/-- C7: whenever the sanitized output does not parse as JSON, or parses to a
value that is not a dict containing a `'suggestions'` key,
`generate_suggestions` returns a failure dict with a non-empty error string
instead of raising. -/
theorem C7_invalid_response_error (parsed : Option Json)
    (h : parsed = none ∨ ∃ j, parsed = some j ∧ isDictWithSuggestions j = false) :
    ∃ m, generate_suggestions_core parsed = .err m ∧ m ≠ "" := by
  rcases h with rfl | ⟨j, rfl, hj⟩
  · exact ⟨"Failed to generate valid suggestions", rfl, by decide⟩
  · cases j with
    | obj fields =>
      simp only [isDictWithSuggestions] at hj
      have hk : getKey fields "suggestions" = none := by
        cases hg : getKey fields "suggestions" with
        | none => rfl
        | some v => rw [hg] at hj; exact absurd hj (by simp)
      refine ⟨"Invalid response format", ?_, by decide⟩
      simp only [generate_suggestions_core, hk]
    | null => exact ⟨"Invalid response format", rfl, by decide⟩
    | bool b => exact ⟨"Invalid response format", rfl, by decide⟩
    | num n => exact ⟨"Invalid response format", rfl, by decide⟩
    | str s2 => exact ⟨"Invalid response format", rfl, by decide⟩
    | arr l2 => exact ⟨"Invalid response format", rfl, by decide⟩

/-- Witness for C7 at an unparseable response and at a dict without the
`'suggestions'` key. -/
theorem C7_invalid_response_error_witness :
    (∃ m, generate_suggestions_core none = .err m ∧ m ≠ "") ∧
    (∃ m, generate_suggestions_core (some (.obj [("a", .num 1)])) = .err m ∧ m ≠ "") :=
  ⟨C7_invalid_response_error none (Or.inl rfl),
   C7_invalid_response_error (some (.obj [("a", .num 1)]))
     (Or.inr ⟨.obj [("a", .num 1)], rfl, rfl⟩)⟩

/-- C9: `analyze_image` never raises; a falsy `image_url` yields the fixed
error dict without invoking the API, and an exception from the API call
yields a failure dict carrying the exception's message. -/
theorem C9_analyze_image_errors (image_url : Option String) (api : String → ApiResult) :
    (isFalsyUrl image_url = true →
      (∀ api2, analyze_image image_url api = analyze_image image_url api2) ∧
      analyze_image image_url api = ⟨false, some "No image URL provided", none⟩) ∧
    (∀ u msg, image_url = some u → isFalsyUrl image_url = false →
      api u = .exn msg → analyze_image image_url api = ⟨false, some msg, none⟩) := by
  constructor
  · intro hf
    constructor
    · intro api2
      simp [analyze_image, hf]
    · simp [analyze_image, hf]
  · rintro u msg rfl hf hexn
    simp [analyze_image, hf, hexn]

/-- Witness for C9 at a missing URL and at a raising API call. -/
theorem C9_analyze_image_errors_witness :
    analyze_image none (fun _ => ApiResult.ok "x") =
      ⟨false, some "No image URL provided", none⟩ ∧
    analyze_image (some "http://img") (fun _ => ApiResult.exn "boom") =
      ⟨false, some "boom", none⟩ :=
  ⟨((C9_analyze_image_errors none (fun _ => ApiResult.ok "x")).1 rfl).2,
   (C9_analyze_image_errors (some "http://img") (fun _ => ApiResult.exn "boom")).2
     "http://img" "boom" rfl (by decide) rfl⟩

/-- C10: `get_fallback_response` is total and deterministic: every message
yields one of the four fixed non-empty replies, chosen by case-insensitive
substring matching against the keyword lists in priority order — greetings,
then identity, then capabilities — with the generic prompt when no keyword
occurs. -/
theorem C10_fallback_response (message : String) :
    (get_fallback_response message = greetingResponse ∨
     get_fallback_response message = identityResponse ∨
     get_fallback_response message = capabilitiesResponse ∨
     get_fallback_response message = genericResponse) ∧
    (greetingResponse ≠ "" ∧ identityResponse ≠ "" ∧
     capabilitiesResponse ≠ "" ∧ genericResponse ≠ "") ∧
    (greetings.any (fun g => pyIn g (pyLower message)) = true →
      get_fallback_response message = greetingResponse) ∧
    (greetings.any (fun g => pyIn g (pyLower message)) = false →
      identityWords.any (fun w => pyIn w (pyLower message)) = true →
      get_fallback_response message = identityResponse) ∧
    (greetings.any (fun g => pyIn g (pyLower message)) = false →
      identityWords.any (fun w => pyIn w (pyLower message)) = false →
      capabilitiesWords.any (fun w => pyIn w (pyLower message)) = true →
      get_fallback_response message = capabilitiesResponse) ∧
    (greetings.any (fun g => pyIn g (pyLower message)) = false →
      identityWords.any (fun w => pyIn w (pyLower message)) = false →
      capabilitiesWords.any (fun w => pyIn w (pyLower message)) = false →
      get_fallback_response message = genericResponse) := by
  refine ⟨?_, ⟨by decide, by decide, by decide, by decide⟩, ?_, ?_, ?_, ?_⟩
  · cases hg : greetings.any (fun g => pyIn g (pyLower message)) with
    | true => exact Or.inl (by simp [get_fallback_response, hg])
    | false =>
      cases hi : identityWords.any (fun w => pyIn w (pyLower message)) with
      | true => exact Or.inr (Or.inl (by simp [get_fallback_response, hg, hi]))
      | false =>
        cases hc : capabilitiesWords.any (fun w => pyIn w (pyLower message)) with
        | true =>
          exact Or.inr (Or.inr (Or.inl (by simp [get_fallback_response, hg, hi, hc])))
        | false =>
          exact Or.inr (Or.inr (Or.inr (by simp [get_fallback_response, hg, hi, hc])))
  · intro hg
    simp [get_fallback_response, hg]
  · intro hg hi
    simp [get_fallback_response, hg, hi]
  · intro hg hi hc
    simp [get_fallback_response, hg, hi, hc]
  · intro hg hi hc
    simp [get_fallback_response, hg, hi, hc]

/-- Witness for C10 at messages hitting each keyword list and none. -/
theorem C10_fallback_response_witness :
    get_fallback_response "HELLO there" = greetingResponse ∧
    get_fallback_response "your name?" = identityResponse ∧
    get_fallback_response "can you do magic" = capabilitiesResponse ∧
    get_fallback_response "bananas" = genericResponse :=
  ⟨(C10_fallback_response "HELLO there").2.2.1 (by decide),
   (C10_fallback_response "your name?").2.2.2.1 (by decide) (by decide),
   (C10_fallback_response "can you do magic").2.2.2.2.1 (by decide) (by decide) (by decide),
   (C10_fallback_response "bananas").2.2.2.2.2 (by decide) (by decide) (by decide)⟩
